import Mathlib

/-!
Verification development for the adk-rust agent-orchestration core, as exposed
through its Python binding (`adk_rust`). The compiled implementation is not part
of the repository's source tree (only the binding's re-export list and the test
suite are), so every operation below is modelled from the specification's words
and checked against the behaviour the test suite pins down.
-/

set_option maxHeartbeats 1000000

namespace Adk

/-! ## JSON-like state values -/

/-- Modelled from the spec: State values are "any serializable scalar, list, or
nested mapping". -/
inductive Value where
  | null : Value
  | bool (b : Bool) : Value
  | int (n : Int) : Value
  | str (s : String) : Value
  | list (xs : List Value) : Value
  | dict (xs : List (String × Value)) : Value

/-! ## State -/

/-- Modelled from the spec: "State: a mutable key→value mapping (keys unique
strings ...) scoped to one session. Supports get/set/contains/remove/
enumerate-all." The mapping is an association list with unique keys. -/
structure State where
  entries : List (String × Value)

def State.empty : State := ⟨[]⟩

/-- Modelled from the spec: `get` returns the value stored under the key, or
nothing when the key is absent (the binding surfaces the latter as `None`). -/
def State.get (s : State) (k : String) : Option Value :=
  (s.entries.find? (fun p => p.1 == k)).map (·.2)

/-- Modelled from the spec: `set` stores the value under the key, overwriting
any previous value for that key. -/
def State.set (s : State) (k : String) (v : Value) : State :=
  ⟨(k, v) :: s.entries.filter (fun p => p.1 != k)⟩

/-- Modelled from the spec: `contains` reports whether the key is present. -/
def State.contains (s : State) (k : String) : Bool :=
  s.entries.any (fun p => p.1 == k)

/-- Modelled from the spec: `remove` deletes the key's entry and returns whether
the key was present (paired here with the resulting state). -/
def State.remove (s : State) (k : String) : Bool × State :=
  (s.contains k, ⟨s.entries.filter (fun p => p.1 != k)⟩)

/-- Modelled from the spec: `all()` enumerates every key-value pair. -/
def State.all (s : State) : List (String × Value) :=
  s.entries

/-! ## Content model -/

/-- Modelled from the spec: "Part: tagged variant — text, function-call,
function-response"; `get_text()` returns text only for the text variant. -/
inductive Part where
  | text (s : String) : Part
  | functionCall (name : String) (args : List (String × Value)) : Part
  | functionResponse (name : String) (response : List (String × Value)) : Part

def Part.is_text : Part → Bool
  | .text _ => true
  | _ => false

def Part.is_function_call : Part → Bool
  | .functionCall _ _ => true
  | _ => false

def Part.get_text : Part → Option String
  | .text s => some s
  | _ => none

/-- Modelled from the spec: "Content: `role` (free-form string, conventionally
user/model/system) + ordered sequence of Part. Immutable once constructed." -/
structure Content where
  role : String
  parts : List Part

/-- Text carried by a list of parts: the concatenation of its text parts. -/
def joinTexts : List Part → String
  | [] => ""
  | .text s :: ps => s ++ joinTexts ps
  | _ :: ps => joinTexts ps

/-- Modelled from the spec: `get_text()` of a Content extracts the text carried
by its parts. -/
def Content.get_text (c : Content) : String :=
  joinTexts c.parts

/-- Modelled from the spec: `Content.user(text)` builds a Content with role
"user" and a single text part. -/
def Content.user (t : String) : Content :=
  ⟨"user", [Part.text t]⟩

/-- Modelled from the spec: `Content.model(text)` builds a Content with role
"model" and a single text part. -/
def Content.model (t : String) : Content :=
  ⟨"model", [Part.text t]⟩

/-! ## String helpers (explicit character-list recursion so every use is a
plain structural computation) -/

/-- `needle` occurs as a contiguous substring of `hay`. -/
def charsContains (hay needle : List Char) : Bool :=
  match hay with
  | [] => needle.isEmpty
  | _ :: t => needle.isPrefixOf hay || charsContains t needle

/-- Substring containment on strings, via their character lists. -/
def strContains (s sub : String) : Bool :=
  charsContains s.data sub.data

/-- Character-count length of a string. -/
def strLen (s : String) : Nat :=
  s.data.length

/-- Split a character list on a separator, keeping empty segments. -/
def splitOnChar (sep : Char) : List Char → List (List Char)
  | [] => [[]]
  | c :: rest =>
    match splitOnChar sep rest with
    | [] => [[c]]
    | w :: ws => if c = sep then [] :: w :: ws else (c :: w) :: ws

/-- Join character lists with a separator character. -/
def joinWithChar (sep : Char) : List (List Char) → List Char
  | [] => []
  | [w] => w
  | w :: ws => w ++ sep :: joinWithChar sep ws

/-! ## Guardrails -/

/-- Modelled from the spec: "Severity is an ordered enumeration
Low < Medium < High < Critical." -/
inductive Severity where
  | Low : Severity
  | Medium : Severity
  | High : Severity
  | Critical : Severity
deriving DecidableEq

/-- The rank realising the spec's ordering Low < Medium < High < Critical. -/
def Severity.rank : Severity → Nat
  | .Low => 0
  | .Medium => 1
  | .High => 2
  | .Critical => 3

/-- Modelled from the spec: the PII categories a PiiRedactor can scan for:
"Email, Phone, SSN, CreditCard, IpAddress". -/
inductive PiiType where
  | Email : PiiType
  | Phone : PiiType
  | Ssn : PiiType
  | CreditCard : PiiType
  | IpAddress : PiiType
deriving DecidableEq

/-- Modelled from the spec: `GuardrailFailure{name, reason, severity}`. -/
structure GuardrailFailure where
  name : String
  reason : String
  severity : Severity

/-- Modelled from the spec: "A ContentFilter is a predicate+transform pair over
a single Content: variants include harmful-content detection, keyword blocklist,
required-topic allowlist, min/max length, and a fully custom combination of the
above, each carrying a Severity." All variants are instances of the custom
combination. -/
structure ContentFilter where
  filterName : String
  blockedKeywords : List String
  requiredTopics : List String
  maxLen : Option Nat
  minLen : Option Nat
  severity : Severity

/-- Modelled from the spec: keyword-blocklist filter variant. -/
def ContentFilter.blocked_keywords (ks : List String) : ContentFilter :=
  ⟨"blocked_keywords", ks, [], none, none, Severity.Medium⟩

/-- Modelled from the spec: max-length filter variant. -/
def ContentFilter.max_length (n : Nat) : ContentFilter :=
  ⟨"max_length", [], [], some n, none, Severity.Medium⟩

/-- Modelled from the spec: min-length filter variant. -/
def ContentFilter.min_length (n : Nat) : ContentFilter :=
  ⟨"min_length", [], [], none, some n, Severity.Medium⟩

/-- Modelled from the spec: required-topic allowlist variant. -/
def ContentFilter.on_topic (topic : String) (keywords : List String) : ContentFilter :=
  ⟨"on_topic: " ++ topic, [], keywords, none, none, Severity.Medium⟩

/-- Modelled from the spec: harmful-content detection variant, a blocklist of
harmful terms at High severity. -/
def ContentFilter.harmful_content : ContentFilter :=
  ⟨"harmful_content", ["violence", "hate", "abuse"], [], none, none, Severity.High⟩

/-- Modelled from the spec: the failures a single filter reports on one
Content — one per blocked keyword found, one if no required topic appears, one
per violated length bound. An empty result means the filter passes. -/
def ContentFilter.check (f : ContentFilter) (c : Content) : List GuardrailFailure :=
  let text := c.get_text
  let kwFails := (f.blockedKeywords.filter (fun k => strContains text k)).map
    (fun k => GuardrailFailure.mk f.filterName ("blocked keyword found: " ++ k) f.severity)
  let topicFails :=
    if f.requiredTopics.isEmpty || f.requiredTopics.any (fun t => strContains text t) then []
    else [GuardrailFailure.mk f.filterName "content is off-topic" f.severity]
  let maxFails :=
    match f.maxLen with
    | some n => if n < strLen text then
        [GuardrailFailure.mk f.filterName "content exceeds maximum length" f.severity]
      else []
    | none => []
  let minFails :=
    match f.minLen with
    | some n => if strLen text < n then
        [GuardrailFailure.mk f.filterName "content is below minimum length" f.severity]
      else []
    | none => []
  kwFails ++ topicFails ++ maxFails ++ minFails

/-- A filter passes a Content when it reports no failure. -/
def ContentFilter.passes (f : ContentFilter) (c : Content) : Bool :=
  (f.check c).isEmpty

/-! ### PII redaction -/

/-- The characters after the first at-sign, if one occurs. -/
def afterAt : List Char → Option (List Char)
  | [] => none
  | c :: rest => if c = '@' then some rest else afterAt rest

/-- A word looks like an email address: a non-empty local part, one at-sign,
and a domain containing a dot. -/
def emailLike (w : List Char) : Bool :=
  match w with
  | [] => false
  | c :: _ =>
    (c != '@') &&
      (match afterAt w with
       | some dom => !dom.isEmpty && dom.contains '.' && !dom.contains '@'
       | none => false)

def allDigits (w : List Char) : Bool :=
  w.all (fun c => c.isDigit)

/-- Lengths of the separator-delimited all-digit groups of a word, when every
group is a non-empty digit run. -/
def groupLens (sep : Char) (w : List Char) : Option (List Nat) :=
  let gs := splitOnChar sep w
  if gs.all (fun g => !g.isEmpty && allDigits g) then some (gs.map List.length) else none

def phoneLike (w : List Char) : Bool :=
  groupLens '-' w == some [3, 3, 4]

def ssnLike (w : List Char) : Bool :=
  groupLens '-' w == some [3, 2, 4]

def creditCardLike (w : List Char) : Bool :=
  groupLens '-' w == some [4, 4, 4, 4] || (allDigits w && w.length == 16)

def ipLike (w : List Char) : Bool :=
  match groupLens '.' w with
  | some ls => ls.length == 4
  | none => false

/-- Whether a word matches one PII category's pattern. -/
def piiMatch (t : PiiType) (w : List Char) : Bool :=
  match t with
  | .Email => emailLike w
  | .Phone => phoneLike w
  | .Ssn => ssnLike w
  | .CreditCard => creditCardLike w
  | .IpAddress => ipLike w

/-- The placeholder a redacted word of each category is replaced with. -/
def piiTag : PiiType → String
  | .Email => "[EMAIL_REDACTED]"
  | .Phone => "[PHONE_REDACTED]"
  | .Ssn => "[SSN_REDACTED]"
  | .CreditCard => "[CREDIT_CARD_REDACTED]"
  | .IpAddress => "[IP_REDACTED]"

/-- Modelled from the spec: "A PiiRedactor scans text for configured PII
categories (Email, Phone, SSN, CreditCard, IpAddress)". -/
structure PiiRedactor where
  types : List PiiType

/-- Modelled from the spec: the no-argument constructor enables every
category. -/
def PiiRedactor.allTypes : PiiRedactor :=
  ⟨[.Email, .Phone, .Ssn, .CreditCard, .IpAddress]⟩

/-- Modelled from the spec: `with_types` restricts the redactor to the given
categories. -/
def PiiRedactor.with_types (ts : List PiiType) : PiiRedactor :=
  ⟨ts⟩

/-- Redact one whitespace-delimited word: replace it by the placeholder of the
first configured category it matches, reporting that category. -/
def redactWord (ts : List PiiType) (w : List Char) : List Char × List PiiType :=
  match ts.find? (fun t => piiMatch t w) with
  | some t => ((piiTag t).data, [t])
  | none => (w, [])

/-- Modelled from the spec: `redact` "returns redacted text plus the list of
categories found". The text is scanned word by word. -/
def PiiRedactor.redact (r : PiiRedactor) (text : String) : String × List PiiType :=
  let results := (splitOnChar ' ' text.data).map (redactWord r.types)
  (⟨joinWithChar ' ' (results.map Prod.fst)⟩, (results.map Prod.snd).flatten)

/-! ### Guardrail set and pipeline -/

/-- Modelled from the spec: "A GuardrailSet is an ordered, immutable-after-build
composition of filters and redactors." -/
structure GuardrailSet where
  content_filters : List ContentFilter
  pii_redactors : List PiiRedactor

/-- Modelled from the spec: the empty set built by the no-argument
constructor. -/
def GuardrailSet.empty : GuardrailSet :=
  ⟨[], []⟩

def GuardrailSet.is_empty (g : GuardrailSet) : Bool :=
  g.content_filters.isEmpty && g.pii_redactors.isEmpty

def GuardrailSet.with_content_filter (g : GuardrailSet) (f : ContentFilter) : GuardrailSet :=
  ⟨g.content_filters ++ [f], g.pii_redactors⟩

def GuardrailSet.with_pii_redactor (g : GuardrailSet) (r : PiiRedactor) : GuardrailSet :=
  ⟨g.content_filters, g.pii_redactors ++ [r]⟩

/-- Modelled from the spec: `GuardrailResult{passed, transformed_content?,
failures[]}`. -/
structure GuardrailResult where
  passed : Bool
  transformed_content : Option Content
  failures : List GuardrailFailure

/-- Modelled from the spec: `run_guardrails(set, content)` "executes filters
first — any filter producing a failure ... accumulates into failures; the
result's passed is true only if all filters pass — then applies redactors to
produce transformed_content". Redactors never contribute failures. -/
def run_guardrails (g : GuardrailSet) (c : Content) : GuardrailResult :=
  let failures := (g.content_filters.map (fun f => f.check c)).flatten
  let redaction := g.pii_redactors.foldl
    (fun (acc : String × List PiiType) r =>
      let step := r.redact acc.1
      (step.1, acc.2 ++ step.2))
    (c.get_text, [])
  let transformed :=
    if redaction.2.isEmpty then none
    else some (Content.mk c.role [Part.text redaction.1])
  ⟨failures.isEmpty, transformed, failures⟩

/-! ## Errors -/

/-- Modelled from the spec's error taxonomy in §7: NotFound, ValidationError,
GuardrailRejected, CallbackError, ToolError, ModelError (messages elided). -/
inductive AdkError where
  | notFound : AdkError
  | validationError : AdkError
  | guardrailRejected : AdkError
  | callbackError : AdkError
  | toolError : AdkError
  | modelError : AdkError
deriving DecidableEq

/-! ## Events -/

/-- Modelled from the spec: "Event: one entry in a session's append-only log.
Attributes: unique id, author, optional Content, optional state-delta, optional
transfer_to_agent marker." The exit-loop signal a LoopAgent watches for
("ExitLoopTool-style ... observed in an emitted Event") is carried as a flag. -/
structure Event where
  id : String
  author : String
  content : Option Content
  stateDelta : List (String × Value)
  exitSignal : Bool
  transferToAgent : Option String

/-! ## Session store -/

/-- Modelled from the spec: "Session: identified by (app name, user id,
session id) triple — this triple is the primary key across every store. Holds a
State and an ordered Event list, plus a last-update timestamp." The timestamp is
an abstract counter. -/
structure Session where
  app_name : String
  user_id : String
  id : String
  state : State
  events : List Event
  last_update_time : Nat

def Session.event_count (s : Session) : Nat :=
  s.events.length

/-- Whether a session is the one stored under the given primary-key triple. -/
def sessionMatches (s : Session) (app user id : String) : Bool :=
  s.app_name == app && s.user_id == user && s.id == id

/-- Modelled from the spec: the reference in-memory session store, a map over
(app, user, id) triples. -/
structure InMemorySessionService where
  sessions : List Session

def InMemorySessionService.empty : InMemorySessionService :=
  ⟨[]⟩

/-- Modelled from the spec: `create(request)→Session` builds a session with the
requested triple, the requested initial state and an empty event log
("after create, get immediately returns a Session with identical (app,user,id)
and empty events"). Duplicate-id semantics (implementer's choice per the spec):
an existing session under the same triple is overwritten. Returns the created
session and the updated store. -/
def InMemorySessionService.create (svc : InMemorySessionService)
    (app user id : String) (initial : State) : Session × InMemorySessionService :=
  let sess : Session := ⟨app, user, id, initial, [], 0⟩
  (sess, ⟨sess :: svc.sessions.filter (fun s => !sessionMatches s app user id)⟩)

/-- Modelled from the spec: `get(app,user,id)→Session` "fails with NotFound"
when nothing is stored under the triple. -/
def InMemorySessionService.get (svc : InMemorySessionService)
    (app user id : String) : Except AdkError Session :=
  match svc.sessions.find? (fun s => sessionMatches s app user id) with
  | some s => Except.ok s
  | none => Except.error AdkError.notFound

/-- Modelled from the spec: `list(app,user)→[Session]` returns the sessions
stored under the (app, user) pair. -/
def InMemorySessionService.list (svc : InMemorySessionService)
    (app user : String) : List Session :=
  svc.sessions.filter (fun s => s.app_name == app && s.user_id == user)

/-- Modelled from the spec: `delete(app,user,id)`; "deleting a nonexistent
session must not be required to fail" — this model takes the no-op branch of
the implementer's choice. -/
def InMemorySessionService.delete (svc : InMemorySessionService)
    (app user id : String) : InMemorySessionService :=
  ⟨svc.sessions.filter (fun s => !sessionMatches s app user id)⟩

/-! ## Artifact store -/

/-- One stored version of a named artifact: its version number, payload and
optional MIME type. The payload is kept abstract as a string of bytes. -/
structure ArtifactEntry where
  version : Nat
  data : String
  mime : Option String

/-- All versions stored under one (app, user, session, name) key. -/
structure ArtifactRecord where
  app : String
  user : String
  session : String
  name : String
  entries : List ArtifactEntry

def recMatches (r : ArtifactRecord) (app user session name : String) : Bool :=
  r.app == app && r.user == user && r.session == session && r.name == name

/-- Modelled from the spec: the reference in-memory artifact store; artifacts
are "named, versioned ... keyed by (app, user, session, name)". -/
structure InMemoryArtifactService where
  records : List ArtifactRecord

def InMemoryArtifactService.empty : InMemoryArtifactService :=
  ⟨[]⟩

/-- The versions stored under a key ([] when the name was never saved). -/
def InMemoryArtifactService.entriesOf (svc : InMemoryArtifactService)
    (app user session name : String) : List ArtifactEntry :=
  match svc.records.find? (fun r => recMatches r app user session name) with
  | some r => r.entries
  | none => []

/-- The highest version number among the entries (0 when there are none). -/
def maxVersion : List ArtifactEntry → Nat
  | [] => 0
  | e :: es => max e.version (maxVersion es)

/-- Modelled from the spec: the store "assigns the next version if unspecified";
"versions are monotonically increasing non-negative integers assigned by the
store, never reused". The first version is 0, then highest + 1. -/
def nextVersion (es : List ArtifactEntry) : Nat :=
  if es.isEmpty then 0 else maxVersion es + 1

/-- Modelled from the spec: `save(app,user,session,name,bytes,mime?,version?)
→int` stores a new version under the key, assigning the next version when none
is given, and returns the assigned version (paired here with the updated
store). An explicit version replaces any entry with that number. -/
def InMemoryArtifactService.save (svc : InMemoryArtifactService)
    (app user session name : String) (data : String) (mime : Option String)
    (version : Option Nat) : Nat × InMemoryArtifactService :=
  let es := svc.entriesOf app user session name
  let v := version.getD (nextVersion es)
  let es' := ArtifactEntry.mk v data mime :: es.filter (fun e => e.version != v)
  (v, ⟨ArtifactRecord.mk app user session name es' ::
        svc.records.filter (fun r => !recMatches r app user session name)⟩)

/-- Modelled from the spec: `load(...,version?)` "defaults to latest";
"latest = the highest existing version". Fails with NotFound when the requested
version (or the name) does not exist. -/
def InMemoryArtifactService.load (svc : InMemoryArtifactService)
    (app user session name : String) (version : Option Nat) :
    Except AdkError ArtifactEntry :=
  let es := svc.entriesOf app user session name
  let v := version.getD (maxVersion es)
  match es.find? (fun e => e.version == v) with
  | some e => Except.ok e
  | none => Except.error AdkError.notFound

/-- Modelled from the spec: `versions(...)` lists the stored version numbers and
"fails with NotFound if the name was never saved". -/
def InMemoryArtifactService.versions (svc : InMemoryArtifactService)
    (app user session name : String) : Except AdkError (List Nat) :=
  let es := svc.entriesOf app user session name
  if es.isEmpty then Except.error AdkError.notFound
  else Except.ok (es.map (fun e => e.version))

/-! ## Loop agent -/

/-- An inner agent of a composite, seen through the one capability the spec
gives every agent: "run(InvocationContext) → lazy sequence of Event". The
context is modelled by the live State it exposes; a run yields the updated
state and the emitted events, or an error ("composite agents do not swallow a
child's error, they propagate it"). -/
structure SubAgent where
  name : String
  run : State → Except AdkError (State × List Event)

/-- Modelled from the spec: a LoopAgent "runs its child agent(s) sequentially,
repeatedly, up to a configured max_iterations (default 10)". -/
structure LoopAgent where
  name : String
  sub_agents : List SubAgent
  max_iterations : Nat

/-- Modelled from the spec: the constructor's `max_iterations` argument is
optional and defaults to 10. -/
def LoopAgent.new (name : String) (subs : List SubAgent)
    (maxIterations : Option Nat) : LoopAgent :=
  ⟨name, subs, maxIterations.getD 10⟩

/-- One iteration: the children run sequentially against the threaded state;
a child's exit signal stops the iteration early. -/
def runChildren : List SubAgent → State → Except AdkError (State × List Event)
  | [], st => Except.ok (st, [])
  | c :: cs, st => do
    let (st', evs) ← c.run st
    if evs.any (fun e => e.exitSignal) then Except.ok (st', evs)
    else do
      let (st'', evs') ← runChildren cs st'
      Except.ok (st'', evs ++ evs')

/-- The loop proper, on the remaining iteration budget. Returns the final
state, all emitted events, and the number of iterations executed. Exhausting
the budget takes the `.ok` branch: "max_iterations is exhausted (not an error —
a normal terminal state)"; an exit signal ends the loop early. -/
def runLoopIters (children : List SubAgent) :
    Nat → State → Except AdkError (State × List Event × Nat)
  | 0, st => Except.ok (st, [], 0)
  | n + 1, st => do
    let (st', evs) ← runChildren children st
    if evs.any (fun e => e.exitSignal) then Except.ok (st', evs, 1)
    else do
      let (st'', evs', iters) ← runLoopIters children n st'
      Except.ok (st'', evs ++ evs', iters + 1)

/-- Modelled from the spec: the LoopAgent's run capability. -/
def LoopAgent.run (la : LoopAgent) (st : State) :
    Except AdkError (State × List Event × Nat) :=
  runLoopIters la.sub_agents la.max_iterations st

/-! ## Helper lemmas -/

/-- Searching with a predicate among the survivors of the complementary filter
finds nothing. -/
theorem find?_filter_not {α : Type} (l : List α) (p : α → Bool) :
    (l.filter (fun x => !p x)).find? p = none := by
  rw [List.find?_eq_none]
  intro x hx
  rw [List.mem_filter] at hx
  simpa using hx.2

/-- Every member's version is bounded by `maxVersion`. -/
theorem version_le_maxVersion {e : ArtifactEntry} : {es : List ArtifactEntry} →
    e ∈ es → e.version ≤ maxVersion es
  | a :: as, h => by
    rcases List.mem_cons.mp h with rfl | hmem
    · exact Nat.le_max_left _ _
    · exact Nat.le_trans (version_le_maxVersion hmem) (Nat.le_max_right _ _)

/-- Filtering never raises the maximum version. -/
theorem maxVersion_filter_le (p : ArtifactEntry → Bool) (es : List ArtifactEntry) :
    maxVersion (es.filter p) ≤ maxVersion es := by
  induction es with
  | nil => exact Nat.le_refl _
  | cons a as ih =>
    rw [List.filter_cons]
    cases hp : p a
    · simp only [Bool.false_eq_true, if_neg, not_false_iff]
      exact Nat.le_trans ih (Nat.le_max_right _ _)
    · simp only [if_pos]
      exact Nat.max_le.mpr
        ⟨Nat.le_max_left _ _, Nat.le_trans ih (Nat.le_max_right _ _)⟩

/-! ## Claim theorems -/

/-- C9: For every string `text`, including the empty string and strings with
embedded control characters, `Content.user(text)` constructs a Content with
role "user" whose `get_text()` returns `text` unchanged, and symmetrically
`Content.model(text).get_text() == text` with role "model". -/
theorem content_user_model_roundtrip (t : String) :
    (Content.user t).role = "user" ∧ (Content.user t).get_text = t ∧
    (Content.model t).role = "model" ∧ (Content.model t).get_text = t := by
  refine ⟨rfl, ?_, rfl, ?_⟩ <;>
    simp [Content.user, Content.model, Content.get_text, joinTexts, String.append_empty]

/-- After removing every pair whose key equals `k`, no pair with key `k` is
found any more. -/
theorem contains_filter_ne (l : List (String × Value)) (k : String) :
    (l.filter (fun p => p.1 != k)).any (fun p => p.1 == k) = false := by
  rw [List.any_eq_false]
  intro x hx
  rw [List.mem_filter] at hx
  simpa using hx.2

/-- C10: On a State with no entry for a key `k`, `get(k)` returns None rather
than raising, `contains(k)` returns False, and `remove(k)` returns False
leaving the state unchanged; conversely, after `set(k, v)`, `contains(k)` is
True and `remove(k)` returns True, after which `contains(k)` is False — so
remove's boolean return reports exactly whether the key was present. -/
theorem state_get_set_contains_remove (s : State) (k : String) (v : Value) :
    (s.contains k = false → s.get k = none ∧ s.remove k = (false, s)) ∧
    (s.remove k).1 = s.contains k ∧
    (s.set k v).contains k = true ∧
    ((s.set k v).remove k).1 = true ∧
    (((s.set k v).remove k).2).contains k = false := by
  obtain ⟨l⟩ := s
  refine ⟨?_, rfl, ?_, ?_, ?_⟩
  · intro h
    rw [State.contains, List.any_eq_false] at h
    refine ⟨?_, ?_⟩
    · rw [State.get, List.find?_eq_none.mpr (fun x hx => h x hx)]
      rfl
    · rw [State.remove]
      have hfil : l.filter (fun p => p.1 != k) = l := by
        rw [List.filter_eq_self]
        intro a ha
        simpa using h a ha
      rw [State.contains, List.any_eq_false.mpr h]
      exact congrArg _ (congrArg State.mk hfil)
  · simp [State.set, State.contains]
  · simp [State.set, State.remove, State.contains]
  · simp only [State.set, State.remove, State.contains]
    rw [List.filter_cons]
    simp only [bne_self_eq_false, Bool.false_eq_true, if_neg, not_false_iff]
    rw [List.filter_filter]
    simp only [Bool.and_self]
    exact contains_filter_ne l k

/-- C1: For every GuardrailSet and every Content, `run_guardrails` returns a
GuardrailResult whose `passed` field is true if and only if every content
filter in the set passes the content; in particular, an empty GuardrailSet
yields `passed=true` with an empty failures list, and a set containing
`ContentFilter.blocked_keywords(["forbidden"])` applied to user content whose
text contains "forbidden" yields `passed=false` with a failures list of length
at least 1, each failure carrying a name, a reason, and a severity. -/
theorem run_guardrails_passed_iff_all_filters (g : GuardrailSet) (c : Content) :
    ((run_guardrails g c).passed = true ↔
      ∀ f ∈ g.content_filters, f.passes c = true) ∧
    (run_guardrails GuardrailSet.empty c).passed = true ∧
    (run_guardrails GuardrailSet.empty c).failures = [] ∧
    (strContains c.get_text "forbidden" = true →
      (run_guardrails (GuardrailSet.empty.with_content_filter
        (ContentFilter.blocked_keywords ["forbidden"])) c).passed = false ∧
      1 ≤ (run_guardrails (GuardrailSet.empty.with_content_filter
        (ContentFilter.blocked_keywords ["forbidden"])) c).failures.length ∧
      ∀ fl ∈ (run_guardrails (GuardrailSet.empty.with_content_filter
        (ContentFilter.blocked_keywords ["forbidden"])) c).failures,
        fl.name ≠ "" ∧ fl.reason ≠ "" ∧
          fl.severity = (ContentFilter.blocked_keywords ["forbidden"]).severity) := by
  refine ⟨?_, rfl, rfl, ?_⟩
  · simp [run_guardrails, ContentFilter.passes, List.isEmpty_iff,
      List.flatten_eq_nil_iff]
  · intro h
    refine ⟨?_, ?_, ?_⟩ <;>
      simp [run_guardrails, GuardrailSet.empty, GuardrailSet.with_content_filter,
        ContentFilter.check, ContentFilter.blocked_keywords, h]

/-- C5: For every GuardrailSet whose only configured guardrails are
PiiRedactors, `run_guardrails` returns `passed=true` (and no failures) for
every input Content — the redactor transforms content but never contributes a
failure; and for the configured Email category applied to text containing
"a@b.com", `redact` returns a redacted text that does not contain the original
sensitive substring together with a non-empty list of found categories. -/
theorem pii_redactor_never_fails (rs : List PiiRedactor) (c : Content) :
    (run_guardrails (GuardrailSet.mk [] rs) c).passed = true ∧
    (run_guardrails (GuardrailSet.mk [] rs) c).failures = [] ∧
    strContains
      ((PiiRedactor.with_types [PiiType.Email]).redact "Contact me at a@b.com").1
      "a@b.com" = false ∧
    ((PiiRedactor.with_types [PiiType.Email]).redact "Contact me at a@b.com").2 ≠ [] := by
  exact ⟨rfl, rfl, by decide, by decide⟩

/-- C8: For every N and every Content, running a GuardrailSet containing only
the `ContentFilter.max_length(N)` filter via `run_guardrails` fails
(`passed=false`, equivalently a non-empty failures list) whenever the
content's text length exceeds N, and passes (`passed=true`) whenever the text
length is at most N. -/
theorem max_length_filter_boundary (n : Nat) (c : Content) :
    ((run_guardrails (GuardrailSet.empty.with_content_filter
      (ContentFilter.max_length n)) c).passed = true ↔ strLen c.get_text ≤ n) ∧
    ((run_guardrails (GuardrailSet.empty.with_content_filter
      (ContentFilter.max_length n)) c).failures ≠ [] ↔ n < strLen c.get_text) := by
  by_cases h : n < strLen c.get_text
  · constructor <;>
      simp [run_guardrails, GuardrailSet.empty, GuardrailSet.with_content_filter,
        ContentFilter.check, ContentFilter.max_length, h, Nat.not_le_of_lt h]
  · constructor <;>
      simp [run_guardrails, GuardrailSet.empty, GuardrailSet.with_content_filter,
        ContentFilter.check, ContentFilter.max_length, h, Nat.le_of_not_lt h]

/-- C3: For every session service state and every (app_name, user_id,
session_id) triple, after a create with that triple, an immediately following
get with the same triple returns a Session whose app_name, user_id, and id
equal the triple given at creation and whose events list is empty
(event_count() == 0). -/
theorem session_create_then_get (svc : InMemorySessionService)
    (app user id : String) (st0 : State) :
    (svc.create app user id st0).2.get app user id
      = Except.ok (svc.create app user id st0).1 ∧
    (svc.create app user id st0).1.app_name = app ∧
    (svc.create app user id st0).1.user_id = user ∧
    (svc.create app user id st0).1.id = id ∧
    (svc.create app user id st0).1.events = [] ∧
    (svc.create app user id st0).1.event_count = 0 := by
  refine ⟨?_, rfl, rfl, rfl, rfl, rfl⟩
  simp [InMemorySessionService.create, InMemorySessionService.get,
    sessionMatches, List.find?]

/-- C6: For every session service state in which no session is stored under the
given (app_name, user_id, session_id) triple, get on that triple fails with a
NotFound error; delete on the same triple succeeds as a no-op (this model's
documented branch of the implementer's choice — it is not required to fail);
and after a delete of an existing session, a subsequent get on its triple fails
with NotFound. -/
theorem session_get_missing_notfound (svc : InMemorySessionService)
    (app user id : String)
    (h : ∀ s ∈ svc.sessions, sessionMatches s app user id = false) :
    svc.get app user id = Except.error AdkError.notFound ∧
    svc.delete app user id = svc ∧
    ∀ st0 : State,
      ((svc.create app user id st0).2.delete app user id).get app user id
        = Except.error AdkError.notFound := by
  obtain ⟨l⟩ := svc
  refine ⟨?_, ?_, ?_⟩
  · rw [InMemorySessionService.get,
      List.find?_eq_none.mpr (fun x hx => by simp [h x hx])]
  · rw [InMemorySessionService.delete]
    have hfil : l.filter (fun s => !sessionMatches s app user id) = l := by
      rw [List.filter_eq_self]
      intro a ha
      simp [h a ha]
    exact congrArg InMemorySessionService.mk hfil
  · intro st0
    rw [InMemorySessionService.create, InMemorySessionService.delete,
      InMemorySessionService.get]
    simp only [List.filter_cons, sessionMatches, beq_self_eq_true,
      Bool.and_self, Bool.not_true, Bool.false_eq_true, if_neg, not_false_iff,
      List.filter_filter, Bool.and_self]
    rw [find?_filter_not]

/-- C7: Sessions are isolated by their (app_name, user_id) prefix: every
session listed for an (app, user) pair carries exactly that pair; after
creating sessions with identical ids under two distinct (app, user) pairs, the
first never appears in the second pair's listing, and get under each pair
returns the session belonging to that pair. -/
theorem session_store_isolation (svc : InMemorySessionService)
    (a1 u1 a2 u2 sid : String) (st1 st2 : State)
    (h : a1 ≠ a2 ∨ u1 ≠ u2) :
    (∀ (w : InMemorySessionService) (a u : String) (s : Session),
        s ∈ w.list a u → s.app_name = a ∧ s.user_id = u) ∧
    (svc.create a1 u1 sid st1).1 ∉
      ((svc.create a1 u1 sid st1).2.create a2 u2 sid st2).2.list a2 u2 ∧
    ((svc.create a1 u1 sid st1).2.create a2 u2 sid st2).2.get a1 u1 sid
      = Except.ok (svc.create a1 u1 sid st1).1 ∧
    ((svc.create a1 u1 sid st1).2.create a2 u2 sid st2).2.get a2 u2 sid
      = Except.ok ((svc.create a1 u1 sid st1).2.create a2 u2 sid st2).1 := by
  have hgen : ∀ (w : InMemorySessionService) (a u : String) (s : Session),
      s ∈ w.list a u → s.app_name = a ∧ s.user_id = u := by
    intro w a u s hs
    rw [InMemorySessionService.list, List.mem_filter] at hs
    have := hs.2
    simp only [Bool.and_eq_true, beq_iff_eq] at this
    exact this
  have hm21 : sessionMatches (Session.mk a2 u2 sid st2 [] 0) a1 u1 sid = false := by
    rcases h with h | h
    · simp only [sessionMatches]
      simp
      intro hc
      exact absurd hc.symm h
    · simp only [sessionMatches]
      simp
      intro _ hu
      exact absurd hu.symm h
  have hm12 : sessionMatches (Session.mk a1 u1 sid st1 [] 0) a2 u2 sid = false := by
    rcases h with h | h <;> simp [sessionMatches, h]
  refine ⟨hgen, ?_, ?_, ?_⟩
  · intro hmem
    rcases hgen _ _ _ _ hmem with ⟨ha, hu⟩
    rcases h with h | h
    · exact h ha
    · exact h hu
  · rw [InMemorySessionService.create, InMemorySessionService.create,
      InMemorySessionService.get]
    simp only [List.find?, hm21, List.filter_cons, hm12, Bool.not_false,
      if_pos, List.find?]
    simp [sessionMatches]
  · rw [InMemorySessionService.create, InMemorySessionService.create,
      InMemorySessionService.get]
    simp [List.find?, sessionMatches]

/-- C2: For every sequence of save calls to the InMemoryArtifactService under
the same (app, user, session, name) key with no explicit version argument, the
returned version numbers are strictly increasing non-negative integers: each
save's returned version strictly exceeds every version already stored under
the key, and a subsequent load with no version argument returns the content of
the highest version saved so far (the content just saved). -/
theorem artifact_versions_increase_and_load_latest
    (svc : InMemoryArtifactService) (app user session name data : String)
    (mime : Option String) :
    (∀ e ∈ svc.entriesOf app user session name,
        e.version < (svc.save app user session name data mime none).1) ∧
    (svc.save app user session name data mime none).2.load app user session name none
      = Except.ok (ArtifactEntry.mk
          (svc.save app user session name data mime none).1 data mime) := by
  constructor
  · intro e he
    have hne : (svc.entriesOf app user session name).isEmpty = false := by
      cases hes : svc.entriesOf app user session name with
      | nil => rw [hes] at he; cases he
      | cons a as => rfl
    simp only [InMemoryArtifactService.save, Option.getD, nextVersion, hne,
      Bool.false_eq_true, if_neg, not_false_iff]
    exact Nat.lt_succ_of_le (version_le_maxVersion he)
  · simp only [InMemoryArtifactService.save, InMemoryArtifactService.load,
      Option.getD]
    have hentries :
        (InMemoryArtifactService.mk
          (ArtifactRecord.mk app user session name
            (ArtifactEntry.mk
              (nextVersion (svc.entriesOf app user session name)) data mime ::
              (svc.entriesOf app user session name).filter
                (fun e => e.version !=
                  nextVersion (svc.entriesOf app user session name))) ::
            svc.records.filter
              (fun r => !recMatches r app user session name))).entriesOf
          app user session name
        = ArtifactEntry.mk
            (nextVersion (svc.entriesOf app user session name)) data mime ::
            (svc.entriesOf app user session name).filter
              (fun e => e.version !=
                nextVersion (svc.entriesOf app user session name)) := by
      simp [InMemoryArtifactService.entriesOf, recMatches, List.find?]
    rw [hentries]
    have hmax :
        maxVersion
          (ArtifactEntry.mk
            (nextVersion (svc.entriesOf app user session name)) data mime ::
            (svc.entriesOf app user session name).filter
              (fun e => e.version !=
                nextVersion (svc.entriesOf app user session name)))
        = nextVersion (svc.entriesOf app user session name) := by
      rw [maxVersion]
      apply Nat.max_eq_left
      apply Nat.le_trans (maxVersion_filter_le _ _)
      rw [nextVersion]
      cases hes : (svc.entriesOf app user session name).isEmpty
      · simp only [Bool.false_eq_true, if_neg, not_false_iff]
        exact Nat.le_succ _
      · rw [List.isEmpty_iff] at hes
        rw [hes]
        simp [maxVersion]
    rw [hmax]
    simp [List.find?]

/-- Each iteration of a loop whose children all run without error and without
ever emitting the exit signal itself runs without error and without the exit
signal. -/
theorem runChildren_ok (subs : List SubAgent)
    (h : ∀ c ∈ subs, ∀ s : State, ∃ p : State × List Event,
        c.run s = Except.ok p ∧ ∀ e ∈ p.2, e.exitSignal = false) :
    ∀ s : State, ∃ q : State × List Event,
      runChildren subs s = Except.ok q ∧ ∀ e ∈ q.2, e.exitSignal = false := by
  induction subs with
  | nil => exact fun s => ⟨(s, []), rfl, by intro e he; cases he⟩
  | cons c cs ih =>
    intro s
    obtain ⟨⟨s', evs⟩, hrun, hnone⟩ := h c (List.mem_cons_self c cs) s
    obtain ⟨⟨s'', evs'⟩, hrest, hnone'⟩ :=
      ih (fun d hd => h d (List.mem_cons_of_mem c hd)) s'
    refine ⟨(s'', evs ++ evs'), ?_, ?_⟩
    · rw [runChildren, hrun]
      have hany : evs.any (fun e => e.exitSignal) = false := by
        rw [List.any_eq_false]
        intro e he
        simp [hnone e he]
      simp only [bind, Except.bind, hany, Bool.false_eq_true, if_neg,
        not_false_iff, hrest]
    · intro e he
      rcases List.mem_append.mp he with he | he
      · exact hnone e he
      · exact hnone' e he

/-- The loop on a budget of `k` iterations, when no child ever errors or emits
the exit signal, terminates normally having executed exactly `k` iterations. -/
theorem runLoopIters_full (subs : List SubAgent)
    (h : ∀ c ∈ subs, ∀ s : State, ∃ p : State × List Event,
        c.run s = Except.ok p ∧ ∀ e ∈ p.2, e.exitSignal = false) :
    ∀ (k : Nat) (st : State), ∃ st' evs,
      runLoopIters subs k st = Except.ok (st', evs, k) := by
  intro k
  induction k with
  | zero => exact fun st => ⟨st, [], rfl⟩
  | succ n ih =>
    intro st
    obtain ⟨⟨s', evs⟩, hrun, hnone⟩ := runChildren_ok subs h st
    obtain ⟨st', evs', hrec⟩ := ih s'
    refine ⟨st', evs ++ evs', ?_⟩
    rw [runLoopIters, hrun]
    have hany : evs.any (fun e => e.exitSignal) = false := by
      rw [List.any_eq_false]
      intro e he
      simp [hnone e he]
    simp only [bind, Except.bind, hany, Bool.false_eq_true, if_neg,
      not_false_iff, hrec]

/-- C4: For every positive (indeed every) k, a LoopAgent constructed with
max_iterations=k whose inner agents never emit the exit signal (and never
fail) executes its children exactly k times and then terminates normally —
exhausting max_iterations is the `.ok` terminal state, not an error; and a
LoopAgent constructed without max_iterations uses the default value 10. -/
theorem loop_agent_runs_exactly_k (name : String) (subs : List SubAgent)
    (k : Nat) (st : State)
    (h : ∀ c ∈ subs, ∀ s : State, ∃ p : State × List Event,
        c.run s = Except.ok p ∧ ∀ e ∈ p.2, e.exitSignal = false) :
    (∃ st' evs, (LoopAgent.new name subs (some k)).run st
      = Except.ok (st', evs, k)) ∧
    (LoopAgent.new name subs none).max_iterations = 10 := by
  exact ⟨runLoopIters_full subs h k st, rfl⟩

/-! ## Witnesses -/

/-- C6 witness: on the empty store, the hypotheses hold and get on a missing
triple reports NotFound while delete no-ops. -/
theorem session_get_missing_notfound_witness :
    InMemorySessionService.empty.get "app" "user1" "missing"
      = Except.error AdkError.notFound ∧
    InMemorySessionService.empty.delete "app" "user1" "missing"
      = InMemorySessionService.empty :=
  ⟨(session_get_missing_notfound InMemorySessionService.empty "app" "user1"
      "missing" (fun s hs => absurd hs (List.not_mem_nil s))).1,
   (session_get_missing_notfound InMemorySessionService.empty "app" "user1"
      "missing" (fun s hs => absurd hs (List.not_mem_nil s))).2.1⟩

/-- C7 witness: with sessions of identical id created under apps "a1" and "a2"
for the same user, get under ("a1","u1") returns the "a1" session. -/
theorem session_store_isolation_witness :
    ((InMemorySessionService.empty.create "a1" "u1" "s" State.empty).2.create
        "a2" "u1" "s" State.empty).2.get "a1" "u1" "s"
      = Except.ok
          (InMemorySessionService.empty.create "a1" "u1" "s" State.empty).1 :=
  (session_store_isolation InMemorySessionService.empty "a1" "u1" "a2" "u1" "s"
      State.empty State.empty (Or.inl (by decide))).2.2.1

/-- A demonstration child agent for the loop witness: always succeeds, emits
one event, never signals exit. -/
def demoChild : SubAgent :=
  ⟨"inner", fun s => Except.ok (s, [Event.mk "e1" "inner" none [] false none])⟩

/-- C4 witness: a loop of one exit-free child with max_iterations=5 terminates
normally after exactly 5 iterations, and the default budget is 10. -/
theorem loop_agent_runs_exactly_k_witness :
    (∃ st' evs, (LoopAgent.new "loop" [demoChild] (some 5)).run State.empty
      = Except.ok (st', evs, 5)) ∧
    (LoopAgent.new "loop" [demoChild] none).max_iterations = 10 :=
  loop_agent_runs_exactly_k "loop" [demoChild] 5 State.empty
    (by
      intro c hc s
      rcases List.mem_singleton.mp hc with rfl
      exact ⟨(s, [Event.mk "e1" "inner" none [] false none]), rfl, by
        intro e he
        rcases List.mem_singleton.mp he with rfl
        rfl⟩)

end Adk
